import Mathlib

/-!
Verification development for the date-suggestion engine (DateParser.ts).

JavaScript strings are embedded as lists of characters (JStr).  All
definitions below are transcribed from src/features/suggestion-provider/
DateParser.ts; external collaborators (chrono, date-holidays, Date) are
passed in as parameters, and the constants module (which is not part of
the repository sources provided) is a parameter structure Consts.
-/

/-- JS string, embedded as a list of characters. -/
abbrev JStr := List Char

/-- Convenience: turn a Lean string literal into a JStr. -/
def str (s : String) : JStr := s.toList

/-- Whitespace test used by trim / \s. -/
def isWsChar (c : Char) : Bool := c.isWhitespace

/-- JS String.prototype.trim. -/
def trimStr (s : JStr) : JStr :=
  ((s.dropWhile isWsChar).reverse.dropWhile isWsChar).reverse

/-- JS String.prototype.toLowerCase (character-wise model). -/
def lowerStr (s : JStr) : JStr := s.map Char.toLower

/-- DateParser.capitalizeFirstLetter: empty stays empty, otherwise the
first character is upper-cased. -/
def capFirst (s : JStr) : JStr :=
  match s with
  | [] => []
  | c :: rest => c.toUpper :: rest

/-- Test for the regex /^\d{4}$/ (exactly four digits). -/
def fourDigits (s : JStr) : Bool := s.length == 4 && s.all Char.isDigit

/-- Test for the regex /^\d/ (starts with a digit). -/
def startsWithDigit (s : JStr) : Bool :=
  match s with
  | c :: _ => c.isDigit
  | [] => false

/-- Test for the regex /\d$/ (ends with a digit). -/
def endsWithDigit (s : JStr) : Bool :=
  match s.getLast? with
  | some c => c.isDigit
  | none => false

/-- Test for the regex /^\d+$/ (one or more digits, nothing else). -/
def allDigits1 (s : JStr) : Bool := !s.isEmpty && s.all Char.isDigit

/-- Test for the regex /^in \d+$/ (literal "in ", then digits, then end). -/
def matchesInDigits (s : JStr) : Bool :=
  match s with
  | 'i' :: 'n' :: ' ' :: rest => allDigits1 rest
  | _ => false

/-- Number(s) for a digit string (used on the four-digit year branch). -/
def digitsToNat (s : JStr) : Nat :=
  s.foldl (fun a c => a * 10 + (c.toNat - 48)) 0

/-- JS String.prototype.indexOf for a substring: index of the first
occurrence of needle in hay, or none. -/
def indexOfSub (needle : JStr) : JStr → Option Nat
  | [] => if needle.isPrefixOf ([] : JStr) then some 0 else none
  | c :: t =>
    if needle.isPrefixOf (c :: t) then some 0
    else (indexOfSub needle t).map (· + 1)

/-- JS String.prototype.includes: needle occurs in hay. -/
def jsIncludes (hay needle : JStr) : Bool := (indexOfSub needle hay).isSome

/-- Fuel-driven worker for splitWs (fuel makes the recursion structural;
`splitWs` always supplies enough fuel). -/
def splitWsF : Nat → JStr → JStr → List JStr
  | _, [], cur => [cur.reverse]
  | 0, _ :: _, cur => [cur.reverse]
  | fuel + 1, c :: rest, cur =>
    if isWsChar c then
      cur.reverse :: splitWsF fuel (rest.dropWhile isWsChar) []
    else splitWsF fuel rest (c :: cur)

/-- JS String.prototype.split(/\s+/): separators are maximal whitespace
runs; an empty input yields [""]. -/
def splitWs (s : JStr) : List JStr := splitWsF s.length s []

/-- Match of the regex /^(?:in\s*)?(\d+)/ against s, returning
(match[0], match[1]) on success.  The optional group is tried first (as
the regex engine does); if it cannot be completed by at least one digit
the engine retries without it, which then requires s to start with a
digit. -/
def matchNum (s : JStr) : Option (JStr × JStr) :=
  match s with
  | 'i' :: 'n' :: rest =>
    let ws := rest.takeWhile isWsChar
    let rest2 := rest.dropWhile isWsChar
    let ds := rest2.takeWhile Char.isDigit
    if ds.isEmpty then none
    else some ('i' :: 'n' :: (ws ++ ds), ds)
  | _ =>
    let ds := s.takeWhile Char.isDigit
    if ds.isEmpty then none else some (ds, ds)

/-- Prefix used by the priority-100 generator: the part of the matched
text before the captured number when the match starts with "in",
otherwise the default "in ". -/
def numPre (matched num : JStr) : JStr :=
  if (str "in").isPrefixOf (lowerStr matched) then
    matched.take ((indexOfSub num (lowerStr matched)).getD 0)
  else str "in "

/-- Constants imported by DateParser.ts from the constants module (that
module is not among the provided sources; all theorems that depend on the
values are stated for an arbitrary Consts). -/
structure Consts where
  DAYS_OF_THE_WEEK : List JStr
  MONTHS_OF_THE_YEAR : List JStr
  TIME_OF_DAY_PHRASES : List JStr
  WEEK : JStr
  MONTH : JStr
  YEAR : JStr
  TODAY : JStr
  TOMORROW : JStr
  YESTERDAY : JStr

/-- Modelled from the spec: the constants module (COMMON_STRINGS,
DAYS_OF_THE_WEEK, MONTHS_OF_THE_YEAR, TIME_OF_DAY_PHRASES) is not part of
the provided sources; these values follow the spec's examples ("Next
week", "Monday", "Noon, Midday, etc."). Used only to instantiate
witnesses; every theorem quantifies over Consts. -/
def defaultConsts : Consts where
  DAYS_OF_THE_WEEK :=
    [str "Monday", str "Tuesday", str "Wednesday", str "Thursday",
     str "Friday", str "Saturday", str "Sunday"]
  MONTHS_OF_THE_YEAR :=
    [str "January", str "February", str "March", str "April", str "May",
     str "June", str "July", str "August", str "September", str "October",
     str "November", str "December"]
  TIME_OF_DAY_PHRASES :=
    [str "Morning", str "Noon", str "Midday", str "Afternoon",
     str "Evening", str "Night", str "Midnight"]
  WEEK := str "week"
  MONTH := str "month"
  YEAR := str "year"
  TODAY := str "today"
  TOMORROW := str "tomorrow"
  YESTERDAY := str "yesterday"

/-- One record returned by the external holiday source. -/
structure HolidayData where
  name : JStr
  date : JStr

/-- External date-holidays instance: only getHolidays(year) is used. -/
structure HolInst where
  getHolidays : Int → List HolidayData

/-- Value stored in the holiday cache. -/
structure HolidayEntry where
  name : JStr
  dates : List Int

/-- The static mutable state of the DateParser class.  The holiday cache
is a JS Map, i.e. an insertion-ordered association list with unique
keys. -/
structure HState where
  holidaysInstance : Option HolInst
  holidayCache : List (JStr × HolidayEntry)
  currentYear : Int
  currentLocale : JStr

/-- Initial static state: no holidays instance, empty cache, locale
"US" (class field initializers at lines 18-21). -/
def initialState (y : Int) : HState :=
  { holidaysInstance := none, holidayCache := [], currentYear := y,
    currentLocale := str "US" }

/-- External collaborators of parseDate: JS Dates are embedded as their
time values (Int); mkYMD is the Date(year, month, day) constructor,
dateOf is Date(string), chronoParseDate is chrono.parseDate. -/
structure Externals where
  now : Int
  dateOf : JStr → Int
  mkYMD : Int → Int → Int → Int
  chronoParseDate : JStr → Option Int

/-- Certainty flags of the first chrono.parse result's start component. -/
structure ChronoComp where
  hourCertain : Bool
  minuteCertain : Bool

/-- Priority 100 generator: numbers expand to the six time units; skipped
for four-digit years (lines 37-63). -/
def contrib100 (input : JStr) : List JStr :=
  match matchNum (lowerStr (trimStr input)) with
  | none => []
  | some (matched, num) =>
    if fourDigits (trimStr input) then []
    else
      let pre := numPre matched num
      [pre ++ num ++ str " days", pre ++ num ++ str " weeks",
       pre ++ num ++ str " months", pre ++ num ++ str " hours",
       pre ++ num ++ str " minutes", pre ++ num ++ str " years"].map capFirst

/-- Match of /^(this|next|last)\s?/ : returns (match[0], match[1]). -/
def matchTNL (s : JStr) : Option (JStr × JStr) :=
  match [str "this", str "next", str "last"].find? (fun k => k.isPrefixOf s) with
  | none => none
  | some k =>
    match s.drop k.length with
    | c :: _ => if isWsChar c then some (k ++ [c], k) else some (k, k)
    | [] => some (k, k)

/-- Priority 90 generator: "this|next|last" followed by time units
(lines 65-99). -/
def contrib90 (c : Consts) (input : JStr) : List JStr :=
  match matchTNL (lowerStr (trimStr input)) with
  | none => []
  | some (m0, kw) =>
    let remainder := (lowerStr ((trimStr input).drop m0.length)).dropWhile isWsChar
    let timeUnits := [c.WEEK, c.MONTH, c.YEAR] ++ c.DAYS_OF_THE_WEEK
    let gens :=
      if !remainder.isEmpty then
        (timeUnits.filter (fun u => remainder.isPrefixOf (lowerStr u))).map
          (fun u => kw ++ str " " ++ u)
      else timeUnits.map (fun u => kw ++ str " " ++ u)
    gens.map capFirst

/-- Priority 85 generator: weekday-name prefixes (lines 101-111). -/
def contrib85 (c : Consts) (input : JStr) : List JStr :=
  let lowT := lowerStr (trimStr input)
  if !lowT.isEmpty && c.DAYS_OF_THE_WEEK.any (fun d => lowT.isPrefixOf (lowerStr d)) then
    c.DAYS_OF_THE_WEEK.filter (fun d => lowT.isPrefixOf (lowerStr d))
  else []

/-- Priority 82 generator: weekday plus this/next/last week qualifier
(lines 113-135). -/
def contrib82 (c : Consts) (input : JStr) : List JStr :=
  let lowT := lowerStr (trimStr input)
  let parts := splitWs lowT
  match parts with
  | p0 :: p1 :: _ =>
    if decide (parts.length ≥ 2)
        && c.DAYS_OF_THE_WEEK.any (fun d => p0.isPrefixOf (lowerStr d))
        && [str "this", str "next", str "last"].any (fun q => p1.isPrefixOf q) then
      c.DAYS_OF_THE_WEEK.flatMap (fun day =>
        if p0.isPrefixOf (lowerStr day) then
          [str "this", str "next", str "last"].filterMap (fun q =>
            if p1.isPrefixOf q then
              let phrase := day ++ str " " ++ q ++ str " week"
              if lowT.isPrefixOf (lowerStr phrase) then some phrase else none
            else none)
        else [])
    else []
  | _ => []

/-- Priority 80 generator: three-letter month abbreviations
(lines 137-145). -/
def contrib80 (c : Consts) (input : JStr) : List JStr :=
  let lowT := lowerStr (trimStr input)
  if [str "jan", str "feb", str "mar", str "apr", str "may", str "jun",
      str "jul", str "aug", str "sep", str "oct", str "nov",
      str "dec"].any (fun m => m.isPrefixOf lowT) then
    c.MONTHS_OF_THE_YEAR.filter (fun m => lowT.isPrefixOf (lowerStr m))
  else []

/-- Priority 70 generator: today / tomorrow / yesterday (lines 147-156). -/
def contrib70 (c : Consts) (input : JStr) : List JStr :=
  let lowT := lowerStr (trimStr input)
  if [str "to", str "ye", str "tom"].any (fun p => p.isPrefixOf lowT) then
    (([c.TODAY, c.TOMORROW, c.YESTERDAY].filter
        (fun opt => lowT.isPrefixOf opt)).map capFirst)
  else []

/-- Priority 65 generator: relative day plus time-of-day combo
(lines 158-172).  The generate step splits the original-case input. -/
def contrib65 (c : Consts) (input : JStr) : List JStr :=
  let lowT := lowerStr (trimStr input)
  let parts := splitWs lowT
  if decide (parts.length = 2)
      && [str "today", str "tomorrow", str "yesterday"].contains (parts.headD [])
      && !(parts.getD 1 []).isEmpty then
    match splitWs (trimStr input) with
    | day :: after :: _ =>
      (c.TIME_OF_DAY_PHRASES.filter
          (fun p => (lowerStr after).isPrefixOf (lowerStr p))).map
        (fun p => capFirst day ++ str " " ++ lowerStr p)
    | _ => []
  else []

/-- Priority 60 generator: time-of-day phrase prefixes (lines 174-185). -/
def contrib60 (c : Consts) (input : JStr) : List JStr :=
  let lowT := lowerStr (trimStr input)
  if decide (lowT.length ≥ 1)
      && c.TIME_OF_DAY_PHRASES.any (fun p => lowT.isPrefixOf (lowerStr p)) then
    c.TIME_OF_DAY_PHRASES.filter (fun p => lowT.isPrefixOf (lowerStr p))
  else []

/-- Priority 55 generator: weekend suggestions (lines 187-204). -/
def contrib55 (input : JStr) : List JStr :=
  let lowT := lowerStr (trimStr input)
  let parts := splitWs lowT
  let fires :=
    if parts.length == 1 then
      (parts.headD []).isPrefixOf (str "weekend") && !(parts.headD []).isEmpty
    else if parts.length == 2 && [str "this", str "next"].contains (parts.headD []) then
      (parts.getD 1 []).isPrefixOf (str "weekend")
    else false
  if fires then
    if parts.length == 2 && [str "this", str "next"].contains (parts.headD []) then
      [capFirst (parts.headD []) ++ str " weekend"]
    else [str "This weekend", str "Next weekend"]
  else []

/-- Priority 50 generator: start/end of period (lines 206-226). -/
def contrib50 (input : JStr) : List JStr :=
  let lowT := lowerStr (trimStr input)
  if (str "st").isPrefixOf lowT || (str "end").isPrefixOf lowT
      || (str "start o").isPrefixOf lowT then
    [str "start", str "end"].flatMap (fun b =>
      [str "this", str "next"].flatMap (fun sel =>
        [str "week", str "month", str "quarter", str "year"].filterMap (fun u =>
          let phrase := capFirst b ++ str " of " ++ sel ++ str " " ++ u
          if lowT.isPrefixOf (lowerStr phrase) then some phrase else none)))
  else []

/-- Priority 40 generator: holiday names (lines 228-245); the pattern
fires only when the trimmed lowercased input occurs inside some cached
key, the generate step filters entries whose canonical name contains the
input and keeps the first five. -/
def contrib40 (st : HState) (input : JStr) : List JStr :=
  let lowT := lowerStr (trimStr input)
  if st.holidaysInstance.isSome && !st.currentLocale.isEmpty
      && decide (lowT.length ≥ 2)
      && st.holidayCache.any (fun kv => jsIncludes kv.1 lowT) then
    (((st.holidayCache.map Prod.snd).filter
        (fun e => jsIncludes (lowerStr e.name) lowT)).map
      (fun e => HolidayEntry.name e)).take 5
  else []

/-- The output of every generator, in evaluation order: the priorities
100, 90, 85, 82, 80, 70, 65, 60, 55, 50, 40 are pairwise distinct and
already declared in descending order, so the sort at lines 535-536
yields exactly this order.  The priority-40 skip at line 560 is subsumed
by the active-cache guard inside contrib40. -/
def generatorOutputs (c : Consts) (st : HState) (input : JStr) : List (List JStr) :=
  [contrib100 input, contrib90 c input, contrib85 c input, contrib82 c input,
   contrib80 c input, contrib70 c input, contrib65 c input, contrib60 c input,
   contrib55 input, contrib50 input, contrib40 st input]

/-- JS Set.add: append if not already present (insertion order kept). -/
def insertDedup (acc : List JStr) (s : JStr) : List JStr :=
  if s ∈ acc then acc else acc ++ [s]

/-- DateParser.getPatternSuggestions (lines 523-587): empty input gives
[], otherwise all generator outputs are collected into an insertion-
ordered deduplicating set. -/
def getPatternSuggestions (c : Consts) (st : HState) (input : JStr) : List JStr :=
  if trimStr input = [] then []
  else ((generatorOutputs c st input).flatten).foldl insertDedup []

/-- getNextUpcomingDate (lines 401-410): sort ascending by time value,
return the first date at or after now, else the latest date, else
null.  JS Array.sort with a numeric comparator produces the unique
ascending reordering, here realised by insertionSort. -/
def getNextUpcomingDate (now : Int) (dates : List Int) : Option Int :=
  let sorted := dates.insertionSort (· ≤ ·)
  match sorted.find? (fun d => now ≤ d) with
  | some d => some d
  | none => sorted.getLast?

/-- Map.get for the cache (keys are unique). -/
def cacheGet (cache : List (JStr × HolidayEntry)) (k : JStr) : Option HolidayEntry :=
  (cache.find? (fun kv => kv.1 == k)).map Prod.snd

/-- checkForHoliday (lines 378-396): direct key hit first, then the
first key matching as a substring in either direction, in cache
iteration (= insertion) order. -/
def checkForHoliday (ext : Externals) (st : HState) (text : JStr) : Option Int :=
  if st.holidaysInstance.isNone || st.currentLocale.isEmpty then none
  else
    let cleaned := trimStr (lowerStr text)
    match cacheGet st.holidayCache cleaned with
    | some e => getNextUpcomingDate ext.now e.dates
    | none =>
      match st.holidayCache.find?
          (fun kv => jsIncludes cleaned kv.1 || jsIncludes kv.1 cleaned) with
      | some kv => getNextUpcomingDate ext.now kv.2.dates
      | none => none

/-- enhanceText (lines 415-437): four-digit years pass through; inputs
starting with a digit get an "in " prefix; " days" is appended when the
trimmed text ends in a digit and the modified text is exactly
"in {digits}" or the trimmed text was purely digits. -/
def enhanceText (text : JStr) : JStr :=
  if text.isEmpty then text
  else
    let t := trimStr text
    if fourDigits t then t
    else
      let m := if startsWithDigit t then str "in " ++ t else t
      if endsWithDigit t && (matchesInDigits m || allDigits1 t) then
        m ++ str " days"
      else m

/-- Stated from the claim's (and spec 4.3's) wording, for comparison
with enhanceText: no "ends with a digit" condition on the append step. -/
def enhanceSpecC8 (text : JStr) : JStr :=
  let t := trimStr text
  if fourDigits t then t
  else
    let m := if startsWithDigit t then str "in " ++ t else t
    if matchesInDigits m || allDigits1 t then m ++ str " days" else m

/-- handleParsing + parseDate (lines 480-515): the four-digit year branch
returns Date(year, 0, 1) directly; otherwise the holiday date, if any,
else chrono.parseDate of the enhanced text. -/
def parseDate (ext : Externals) (st : HState) (text : JStr) : Option Int :=
  if fourDigits (trimStr text) then
    some (ext.mkYMD (Int.ofNat (digitsToNat (trimStr text))) 0 1)
  else if text.isEmpty then ext.chronoParseDate []
  else
    match checkForHoliday ext st text with
    | some d => some d
    | none => ext.chronoParseDate (enhanceText text)

/-- Test for /^in \d+\s+(days?|weeks?|years?)$/ . -/
def matchesInNUnits (s : JStr) : Bool :=
  match s with
  | 'i' :: 'n' :: ' ' :: rest =>
    let ds := rest.takeWhile Char.isDigit
    let r2 := rest.dropWhile Char.isDigit
    let ws := r2.takeWhile isWsChar
    let r3 := r2.dropWhile isWsChar
    !ds.isEmpty && !ws.isEmpty
      && [str "day", str "days", str "week", str "weeks", str "year",
          str "years"].contains r3
  | _ => false

/-- Test for /^(next|last|this)\s+(day|week|month|year)$/ . -/
def matchesQualUnit (s : JStr) : Bool :=
  [str "next", str "last", str "this"].any (fun q =>
    q.isPrefixOf s &&
    (let r := s.drop q.length
     !(r.takeWhile isWsChar).isEmpty
       && [str "day", str "week", str "month", str "year"].contains
            (r.dropWhile isWsChar)))

/-- Body of inputHasTimeComponent on the lowercased trimmed text. -/
def timeComponentCore (phrases : List JStr)
    (chronoP : JStr → Option ChronoComp) (lt : JStr) : Bool :=
  if phrases.any (fun p => lowerStr p == lt) then true
  else if [str "today", str "tomorrow", str "yesterday"].contains lt then false
  else if matchesInNUnits lt || matchesQualUnit lt then false
  else
    match chronoP lt with
    | some comp => comp.hourCertain || comp.minuteCertain
    | none => false

/-- inputHasTimeComponent (lines 443-475), with the configured
time-of-day phrases and chrono.parse (restricted to the certainty flags
of the first result) as parameters. -/
def inputHasTimeComponent (phrases : List JStr)
    (chronoP : JStr → Option ChronoComp) (text : JStr) : Bool :=
  if text.isEmpty then false
  else timeComponentCore phrases chronoP (lowerStr (trimStr text))

/-- Map.has for the cache. -/
def cacheHas (cache : List (JStr × HolidayEntry)) (k : JStr) : Bool :=
  cache.any (fun kv => kv.1 == k)

/-- Map.set: overwrite in place when the key exists, else append. -/
def cacheSet (cache : List (JStr × HolidayEntry)) (k : JStr)
    (v : HolidayEntry) : List (JStr × HolidayEntry) :=
  if cacheHas cache k then
    cache.map (fun kv => if kv.1 == k then (kv.1, v) else kv)
  else cache ++ [(k, v)]

/-- dates.push(d) on the entry stored under k. -/
def cachePushDate (cache : List (JStr × HolidayEntry)) (k : JStr)
    (d : Int) : List (JStr × HolidayEntry) :=
  cache.map (fun kv =>
    if kv.1 == k then (kv.1, ⟨kv.2.name, kv.2.dates ++ [d]⟩) else kv)

/-- addHolidayToCache (lines 316-336): register under the lowercase full
name, and under the first space-delimited word when it is longer than 3
characters. -/
def addHolidayToCache (dateOf : JStr → Int)
    (cache : List (JStr × HolidayEntry)) (h : HolidayData) :
    List (JStr × HolidayEntry) :=
  let lowerName := lowerStr h.name
  let d := dateOf h.date
  let c1 :=
    if cacheHas cache lowerName then cachePushDate cache lowerName d
    else cache ++ [(lowerName, ⟨h.name, [d]⟩)]
  let shortName := lowerName.takeWhile (fun c => c ≠ ' ')
  if decide (shortName.length > 3) then
    if cacheHas c1 shortName then cachePushDate c1 shortName d
    else c1 ++ [(shortName, ⟨h.name, [d]⟩)]
  else c1

/-- addHolidayAliases (lines 341-349): for each (alias, official) pair
whose official key is cached, store the alias key with the alias as
display name and a copy of the official entry's dates. -/
def addHolidayAliases (aliases : List (JStr × JStr))
    (cache : List (JStr × HolidayEntry)) : List (JStr × HolidayEntry) :=
  aliases.foldl (fun c al =>
    match cacheGet c al.2 with
    | some e => cacheSet c (lowerStr al.1) ⟨al.1, e.dates⟩
    | none => c) cache

/-- refreshHolidayCache (lines 282-299) with the instance known present:
clear, add the holidays of the current and next year, then the
aliases. -/
def rebuildCache (ext : Externals) (aliases : List (JStr × JStr))
    (inst : HolInst) (year : Int) : List (JStr × HolidayEntry) :=
  addHolidayAliases aliases
    ((inst.getHolidays year ++ inst.getHolidays (year + 1)).foldl
      (addHolidayToCache ext.dateOf) [])

/-- initHolidays (lines 252-277).  loader models the fallible
constructor new Holidays(locale); the fallback constructor call sits
inside the catch block and is not itself protected, so its failure
surfaces as Except.error. -/
def initHolidays (ext : Externals) (aliases : List (JStr × JStr))
    (loader : JStr → Option HolInst) (st : HState) (locale : JStr) :
    Except Unit HState :=
  if locale = [] then
    .ok { st with holidaysInstance := none, holidayCache := [],
                  currentLocale := [] }
  else
    match loader locale with
    | some inst =>
      .ok { st with holidaysInstance := some inst, currentLocale := locale,
                    holidayCache := rebuildCache ext aliases inst st.currentYear }
    | none =>
      if locale ≠ str "US" then
        match loader (str "US") with
        | some inst =>
          .ok { st with holidaysInstance := some inst,
                        currentLocale := str "US",
                        holidayCache := rebuildCache ext aliases inst st.currentYear }
        | none => .error ()
      else .ok st

/-- setLocale (lines 355-366): empty locale clears; a changed locale
re-initializes; the same locale is a no-op. -/
def setLocale (ext : Externals) (aliases : List (JStr × JStr))
    (loader : JStr → Option HolInst) (st : HState) (locale : JStr) :
    Except Unit HState :=
  if locale = [] then
    .ok { st with holidaysInstance := none, holidayCache := [],
                  currentLocale := [] }
  else if st.currentLocale ≠ locale then initHolidays ext aliases loader st locale
  else .ok st

/-- getCurrentLocale (lines 371-373). -/
def getCurrentLocale (st : HState) : JStr := st.currentLocale

/-- getHolidayNames (lines 592-598): unique canonical names, in cache
order; empty when the cache is inactive. -/
def getHolidayNames (st : HState) : List JStr :=
  if st.holidaysInstance.isNone || st.currentLocale.isEmpty then []
  else (st.holidayCache.map (fun kv => kv.2.name)).foldl insertDedup []

/-- Concrete externals used by witnesses: Date(y, m, d) is encoded
injectively as a number. -/
def extW : Externals :=
  { now := 0, dateOf := fun _ => 0,
    mkYMD := fun y m d => y * 10000 + m * 100 + d,
    chronoParseDate := fun _ => none }

/-- chrono.parse stand-in that always reports certain hour/minute; used
by witnesses to show the classifier's negative answers do not consult
the external parser. -/
def chronoAffirm : JStr → Option ChronoComp := fun _ => some ⟨true, true⟩

/-- The firing condition the claim (and spec table row 40) states for
the holiday rule: cache active, trimmed lowercased input of length at
least 2, and the input is a substring of some cached key or contains
some cached key.  Stated from the claim's words for comparison with
contrib40. -/
def holidayClaimTrigger (st : HState) (input : JStr) : Bool :=
  st.holidaysInstance.isSome && !st.currentLocale.isEmpty
    && decide ((lowerStr (trimStr input)).length ≥ 2)
    && st.holidayCache.any (fun kv =>
         jsIncludes kv.1 (lowerStr (trimStr input))
           || jsIncludes (lowerStr (trimStr input)) kv.1)

/-- An active cache state holding one holiday, "New Year", under its
lowercase full name (its first word is 3 letters, so no short key is
added). -/
def stNewYear : HState :=
  { holidaysInstance := some ⟨fun _ => []⟩,
    holidayCache := [(str "new year", ⟨str "New Year", [100]⟩)],
    currentYear := 2025, currentLocale := str "US" }

/-- An active cache state for "Christmas Day" with its full-name key and
its short first-word key. -/
def stChristmas : HState :=
  { holidaysInstance := some ⟨fun _ => []⟩,
    holidayCache :=
      [(str "christmas day", ⟨str "Christmas Day", [200]⟩),
       (str "christmas", ⟨str "Christmas Day", [200]⟩)],
    currentYear := 2025, currentLocale := str "US" }

/-- Loader used by the C7 witness: only "US" has holiday data. -/
def loaderUSOnly : JStr → Option HolInst :=
  fun l => if l = str "US" then some ⟨fun _ => []⟩ else none

/-- Loader used by the C7 witness: fails everywhere. -/
def loaderNone : JStr → Option HolInst := fun _ => none

theorem mem_foldl_insertDedup (l : List JStr) (a : List JStr) (x : JStr) :
    x ∈ l.foldl insertDedup a ↔ x ∈ a ∨ x ∈ l := by
  induction l generalizing a with
  | nil => simp
  | cons h t ih =>
    simp only [List.foldl_cons, ih, insertDedup]
    by_cases hh : h ∈ a <;> simp [hh, List.mem_cons] <;> aesop

theorem nodup_foldl_insertDedup (l a : List JStr) (ha : a.Nodup) :
    (l.foldl insertDedup a).Nodup := by
  induction l generalizing a with
  | nil => simpa
  | cons h t ih =>
    apply ih
    unfold insertDedup
    by_cases hh : h ∈ a
    · simpa [hh]
    · simp [hh, List.nodup_append, ha]

theorem trim_ne_of_matchNum {input : JStr} {p : JStr × JStr}
    (h : matchNum (lowerStr (trimStr input)) = some p) : trimStr input ≠ [] := by
  intro he
  rw [he] at h
  simp [lowerStr, matchNum] at h

/-- C1: whenever the lowercased trimmed input matches
/^(?:in\s*)?(\d+)/ and the trimmed input is not exactly four digits,
getPatternSuggestions contains the six unit expansions built from the
captured number and the detected prefix (the exact matched prefix text
when the match starts with "in", the default "in " otherwise), each
capitalized on the first letter; when the trimmed input is exactly four
digits the numeric rule contributes nothing. -/
theorem numeric_rule_suggestions (c : Consts) (st : HState) (input : JStr) :
    (∀ matched num,
        matchNum (lowerStr (trimStr input)) = some (matched, num) →
        fourDigits (trimStr input) = false →
        ∀ u ∈ [str " days", str " weeks", str " months", str " hours",
               str " minutes", str " years"],
          capFirst (numPre matched num ++ num ++ u)
            ∈ getPatternSuggestions c st input) ∧
    (fourDigits (trimStr input) = true → contrib100 input = []) := by
  constructor
  · intro matched num hm h4 u hu
    have hne : trimStr input ≠ [] := trim_ne_of_matchNum hm
    rw [getPatternSuggestions, if_neg hne, mem_foldl_insertDedup]
    right
    rw [List.mem_flatten]
    refine ⟨contrib100 input, by simp [generatorOutputs], ?_⟩
    simp only [contrib100]
    rw [hm]
    simp only [h4, Bool.false_eq_true, if_false]
    simp only [List.mem_cons, List.not_mem_nil, or_false] at hu
    rcases hu with rfl | rfl | rfl | rfl | rfl | rfl <;> simp

  · intro h4
    unfold contrib100
    split
    · rfl
    · simp [h4]

/-- C2: for every input (and any constants and cache state) the
suggestion list returned by getPatternSuggestions has no duplicate
strings. -/
theorem pattern_suggestions_nodup (c : Consts) (st : HState) (input : JStr) :
    (getPatternSuggestions c st input).Nodup := by
  unfold getPatternSuggestions
  split
  · exact List.nodup_nil
  · exact nodup_foldl_insertDedup _ _ List.nodup_nil

/-- C3: getPatternSuggestions is a pure function of the input, the
constants and the holiday instance / cache / locale parts of the
state — in particular two calls on identical input under a fixed
holiday cache and locale return identical output sequences, whatever the
remaining mutable state (currentYear) is. -/
theorem pattern_suggestions_deterministic (c : Consts)
    (inst : Option HolInst) (cache : List (JStr × HolidayEntry))
    (loc : JStr) (y y' : Int) (input : JStr) :
    getPatternSuggestions c ⟨inst, cache, y, loc⟩ input
      = getPatternSuggestions c ⟨inst, cache, y', loc⟩ input := rfl

/-- C4: when the trimmed text is exactly four digits, parseDate returns
Date(year, 0, 1) — January 1 of that year — for every holiday-cache
state and every external parser (so neither is consulted). -/
theorem year_only_parse (ext : Externals) (st : HState) (text : JStr)
    (h : fourDigits (trimStr text) = true) :
    parseDate ext st text
      = some (ext.mkYMD (Int.ofNat (digitsToNat (trimStr text))) 0 1) := by
  unfold parseDate
  simp [h]

theorem year_only_parse_witness :
    fourDigits (trimStr (str "2027")) = true ∧
    parseDate extW (initialState 2025) (str "2027")
      = some (extW.mkYMD (Int.ofNat (digitsToNat (trimStr (str "2027")))) 0 1) ∧
    extW.mkYMD (Int.ofNat (digitsToNat (trimStr (str "2027")))) 0 1
      = extW.mkYMD 2027 0 1 :=
  ⟨by decide, year_only_parse extW (initialState 2025) (str "2027") (by decide),
   by decide⟩

theorem getNextUpcomingDate_eq (now : Int) (dates : List Int) :
    getNextUpcomingDate now dates =
      match (dates.insertionSort (· ≤ ·)).find? (fun d => now ≤ d) with
      | some d => some d
      | none => (dates.insertionSort (· ≤ ·)).getLast? := rfl

theorem sorted_find_min {l : List Int} (hs : l.Sorted (· ≤ ·)) {now m : Int}
    (hf : l.find? (fun d => now ≤ d) = some m) :
    m ∈ l ∧ now ≤ m ∧ ∀ x ∈ l, now ≤ x → m ≤ x := by
  induction l with
  | nil => simp at hf
  | cons a t ih =>
    rw [List.sorted_cons] at hs
    by_cases ha : now ≤ a
    · have hcons : (a :: t).find? (fun d => now ≤ d) = some a :=
        List.find?_cons_of_pos _ (by simpa using ha)
      rw [hcons] at hf
      obtain rfl : a = m := Option.some.inj hf
      refine ⟨List.mem_cons_self _ _, ha, ?_⟩
      intro x hx _
      rcases List.mem_cons.mp hx with rfl | hx'
      · exact le_refl _
      · exact hs.1 x hx'
    · have hcons : (a :: t).find? (fun d => now ≤ d)
          = t.find? (fun d => now ≤ d) :=
        List.find?_cons_of_neg _ (by simpa using ha)
      rw [hcons] at hf
      obtain ⟨hm, hnm, hmin⟩ := ih hs.2 hf
      refine ⟨List.mem_cons_of_mem _ hm, hnm, ?_⟩
      intro x hx hxnow
      rcases List.mem_cons.mp hx with rfl | hx'
      · exact absurd hxnow ha
      · exact hmin x hx' hxnow

theorem endsWithDigit_cons {c : Char} {t : JStr} (h : t ≠ []) :
    endsWithDigit (c :: t) = endsWithDigit t := by
  unfold endsWithDigit
  cases t with
  | nil => exact absurd rfl h
  | cons b t' => rw [List.getLast?_cons_cons]

theorem sorted_getLast?_max {l : List Int} (hs : l.Sorted (· ≤ ·)) {M : Int}
    (hM : l.getLast? = some M) : M ∈ l ∧ ∀ x ∈ l, x ≤ M := by
  induction l with
  | nil => simp at hM
  | cons a t ih =>
    rw [List.sorted_cons] at hs
    cases t with
    | nil =>
      simp only [List.getLast?_singleton, Option.some.injEq] at hM
      subst hM
      exact ⟨List.mem_singleton_self _, by simp⟩
    | cons b t' =>
      rw [List.getLast?_cons_cons] at hM
      obtain ⟨hmem, hmax⟩ := ih hs.2 hM
      refine ⟨List.mem_cons_of_mem _ hmem, ?_⟩
      intro x hx
      rcases List.mem_cons.mp hx with rfl | hx'
      · exact hs.1 M hmem
      · exact hmax x hx'

/-- C5: resolution of an occurrence list returns the earliest stored
date at or after now when one exists; when all stored dates are strictly
before now it returns the maximum stored date; the empty list resolves
to none. -/
theorem next_upcoming_resolution (now : Int) (dates : List Int) :
    (dates = [] → getNextUpcomingDate now dates = none) ∧
    ((∃ d ∈ dates, now ≤ d) →
      ∃ m, getNextUpcomingDate now dates = some m ∧ m ∈ dates ∧ now ≤ m ∧
        ∀ d ∈ dates, now ≤ d → m ≤ d) ∧
    (dates ≠ [] → (∀ d ∈ dates, d < now) →
      ∃ M, getNextUpcomingDate now dates = some M ∧ M ∈ dates ∧
        ∀ d ∈ dates, d ≤ M) := by
  have hperm := List.perm_insertionSort (α := Int) (· ≤ ·) dates
  have hs := List.sorted_insertionSort (α := Int) (· ≤ ·) dates
  refine ⟨?_, ?_, ?_⟩
  · rintro rfl
    rfl
  · rintro ⟨d, hd, hnd⟩
    cases hf : (dates.insertionSort (· ≤ ·)).find? (fun d => now ≤ d) with
    | none =>
      exfalso
      rw [List.find?_eq_none] at hf
      exact absurd hnd (by simpa using hf d (hperm.mem_iff.mpr hd))
    | some m =>
      obtain ⟨hm, hnm, hmin⟩ := sorted_find_min hs hf
      refine ⟨m, ?_, hperm.mem_iff.mp hm, hnm, ?_⟩
      · rw [getNextUpcomingDate_eq, hf]
      · intro x hx hxnow
        exact hmin x (hperm.mem_iff.mpr hx) hxnow
  · intro hne hall
    cases hf : (dates.insertionSort (· ≤ ·)).find? (fun d => now ≤ d) with
    | some m =>
      exfalso
      obtain ⟨hm, hnm, _⟩ := sorted_find_min hs hf
      exact absurd hnm (not_le.mpr (hall m (hperm.mem_iff.mp hm)))
    | none =>
      cases hL : (dates.insertionSort (· ≤ ·)).getLast? with
      | none =>
        exfalso
        rw [List.getLast?_eq_none_iff] at hL
        exact hne (List.Perm.eq_nil (hL ▸ hperm.symm))
      | some M =>
        obtain ⟨hmem, hmax⟩ := sorted_getLast?_max hs hL
        refine ⟨M, ?_, hperm.mem_iff.mp hmem, ?_⟩
        · rw [getNextUpcomingDate_eq, hf, hL]
        · intro x hx
          exact hmax x (hperm.mem_iff.mpr hx)

theorem next_upcoming_resolution_witness :
    (∃ d ∈ ([5, 12, 20] : List Int), (10 : Int) ≤ d) ∧
    (∃ m, getNextUpcomingDate 10 [5, 12, 20] = some m ∧
      m ∈ ([5, 12, 20] : List Int) ∧ (10 : Int) ≤ m ∧
      ∀ d ∈ ([5, 12, 20] : List Int), 10 ≤ d → m ≤ d) ∧
    (∃ M, getNextUpcomingDate 99 [5, 12, 20] = some M ∧
      M ∈ ([5, 12, 20] : List Int) ∧ ∀ d ∈ ([5, 12, 20] : List Int), d ≤ M) :=
  ⟨⟨12, by decide, by decide⟩,
   (next_upcoming_resolution 10 [5, 12, 20]).2.1 ⟨12, by decide, by decide⟩,
   (next_upcoming_resolution 99 [5, 12, 20]).2.2 (by decide)
     (by intro d hd; fin_cases hd <;> decide)⟩

theorem endsWithDigit_of_allDigits1 {t : JStr} (h : allDigits1 t = true) :
    endsWithDigit t = true := by
  unfold allDigits1 at h
  rw [Bool.and_eq_true] at h
  obtain ⟨hne, hall⟩ := h
  cases hL : t.getLast? with
  | none =>
    rw [List.getLast?_eq_none_iff] at hL
    simp [hL] at hne
  | some c =>
    have hcm : c ∈ t.getLast? := by rw [hL]; rfl
    obtain ⟨hne2, hce⟩ := List.mem_getLast?_eq_getLast hcm
    have hmem : c ∈ t := by rw [hce]; exact List.getLast_mem hne2
    unfold endsWithDigit
    rw [hL]
    exact List.all_eq_true.mp hall c hmem

theorem endsWithDigit_of_matchesInDigits {s : JStr}
    (h : matchesInDigits s = true) : endsWithDigit s = true := by
  unfold matchesInDigits at h
  split at h
  · next rest =>
    have hne : rest ≠ [] := by
      intro hr
      rw [hr] at h
      simp [allDigits1] at h
    rw [endsWithDigit_cons (by simp), endsWithDigit_cons (by simp),
        endsWithDigit_cons hne]
    exact endsWithDigit_of_allDigits1 h
  · exact absurd h (by simp)

/-- C8: enhanceText agrees everywhere with the claim's description
(four-digit years unchanged; digit-initial inputs get an "in " prefix;
" days" is appended exactly when the possibly-prefixed text is
"in {digits}" or the trimmed input was purely digits) — the extra
"trimmed text ends in a digit" conjunct in the code is implied by either
disjunct; in particular "5" becomes "in 5 days". -/
theorem enhance_matches_spec :
    (∀ text, enhanceText text = enhanceSpecC8 text) ∧
    enhanceText (str "5") = str "in 5 days" := by
  constructor
  · intro text
    by_cases he : text = []
    · subst he
      decide
    · have he' : text.isEmpty = false := by
        cases text with
        | nil => exact absurd rfl he
        | cons c t => rfl
      unfold enhanceText enhanceSpecC8
      rw [he']
      simp only [Bool.false_eq_true, if_false]
      by_cases h4 : fourDigits (trimStr text) = true
      · simp [h4]
      · simp only [if_neg h4]
        set t := trimStr text with hteq
        set m := if startsWithDigit t = true then str "in " ++ t else t with hmeq
        by_cases hc : (matchesInDigits m || allDigits1 t) = true
        · have hend : endsWithDigit t = true := by
            have hc2 : matchesInDigits m = true ∨ allDigits1 t = true := by
              simpa using hc
            rcases hc2 with h1 | h2
            · by_cases hsd : startsWithDigit t = true
              · rw [hmeq, if_pos hsd] at h1
                have hin : str "in " = ['i', 'n', ' '] := by decide
                rw [hin, List.cons_append, List.cons_append,
                    List.cons_append, List.nil_append] at h1
                unfold matchesInDigits at h1
                exact endsWithDigit_of_allDigits1 h1
              · rw [hmeq, if_neg hsd] at h1
                exact endsWithDigit_of_matchesInDigits h1
            · exact endsWithDigit_of_allDigits1 h2
          rw [hc, hend]
          simp
        · rw [Bool.not_eq_true] at hc
          rw [hc]
          simp
  · decide

theorem isEmpty_false_of_ne_nil {text : JStr} (h : text ≠ []) :
    text.isEmpty = false := by
  cases text with
  | nil => exact absurd rfl h
  | cons c t => rfl

/-- C9: the classifier answers true on any text whose trimmed lowercase
form equals a configured time-of-day phrase; false on
today/tomorrow/yesterday and on the two date-only patterns (provided, as
the claim presumes, none of those equals a configured phrase) — in each
case for every external parser, so the parser is not consulted; and
false on empty text. -/
theorem time_component_classification (phrases : List JStr)
    (chronoP : JStr → Option ChronoComp) :
    (∀ text, text ≠ [] →
       phrases.any (fun p => lowerStr p == lowerStr (trimStr text)) = true →
       inputHasTimeComponent phrases chronoP text = true) ∧
    (∀ text,
       [str "today", str "tomorrow", str "yesterday"].contains
         (lowerStr (trimStr text)) = true →
       phrases.any (fun p => lowerStr p == lowerStr (trimStr text)) = false →
       inputHasTimeComponent phrases chronoP text = false) ∧
    (∀ text,
       (matchesInNUnits (lowerStr (trimStr text))
         || matchesQualUnit (lowerStr (trimStr text))) = true →
       phrases.any (fun p => lowerStr p == lowerStr (trimStr text)) = false →
       inputHasTimeComponent phrases chronoP text = false) ∧
    inputHasTimeComponent phrases chronoP [] = false := by
  refine ⟨?_, ?_, ?_, rfl⟩
  · intro text hne hp
    unfold inputHasTimeComponent timeComponentCore
    rw [isEmpty_false_of_ne_nil hne, if_neg (by decide), if_pos hp]
  · intro text hmem hp
    have hne : text ≠ [] := by
      intro h
      subst h
      exact absurd hmem (by decide)
    unfold inputHasTimeComponent timeComponentCore
    rw [isEmpty_false_of_ne_nil hne, if_neg (by decide),
        if_neg (by rw [hp]; decide), if_pos hmem]
  · intro text hpat hp
    have hne : text ≠ [] := by
      intro h
      subst h
      exact absurd hpat (by decide)
    have hnc : [str "today", str "tomorrow", str "yesterday"].contains
        (lowerStr (trimStr text)) = false := by
      by_cases h : [str "today", str "tomorrow", str "yesterday"].contains
          (lowerStr (trimStr text)) = true
      · exfalso
        have hmem : lowerStr (trimStr text)
            ∈ [str "today", str "tomorrow", str "yesterday"] := by
          simpa using h
        simp only [List.mem_cons, List.not_mem_nil, or_false] at hmem
        rcases hmem with h3 | h3 | h3 <;> rw [h3] at hpat <;>
          exact absurd hpat (by decide)
      · simpa using h
    unfold inputHasTimeComponent timeComponentCore
    rw [isEmpty_false_of_ne_nil hne, if_neg (by decide),
        if_neg (by rw [hp]; decide), if_neg (by rw [hnc]; decide),
        if_pos hpat]

theorem time_component_classification_witness :
    inputHasTimeComponent defaultConsts.TIME_OF_DAY_PHRASES chronoAffirm
      (str " noon ") = true ∧
    inputHasTimeComponent defaultConsts.TIME_OF_DAY_PHRASES chronoAffirm
      (str "tomorrow") = false ∧
    inputHasTimeComponent defaultConsts.TIME_OF_DAY_PHRASES chronoAffirm
      (str "next week") = false ∧
    inputHasTimeComponent defaultConsts.TIME_OF_DAY_PHRASES chronoAffirm
      [] = false :=
  ⟨(time_component_classification defaultConsts.TIME_OF_DAY_PHRASES
      chronoAffirm).1 (str " noon ") (by decide) (by decide),
   (time_component_classification defaultConsts.TIME_OF_DAY_PHRASES
      chronoAffirm).2.1 (str "tomorrow") (by decide) (by decide),
   (time_component_classification defaultConsts.TIME_OF_DAY_PHRASES
      chronoAffirm).2.2.1 (str "next week") (by decide) (by decide),
   (time_component_classification defaultConsts.TIME_OF_DAY_PHRASES
      chronoAffirm).2.2.2⟩

theorem numeric_rule_suggestions_witness :
    matchNum (lowerStr (trimStr (str "in 3"))) = some (str "in 3", str "3") ∧
    fourDigits (trimStr (str "in 3")) = false ∧
    capFirst (numPre (str "in 3") (str "3") ++ str "3" ++ str " days")
      ∈ getPatternSuggestions defaultConsts (initialState 2025) (str "in 3") ∧
    (fourDigits (trimStr (str "2025")) = true ∧ contrib100 (str "2025") = []) :=
  ⟨by decide, by decide,
   (numeric_rule_suggestions defaultConsts (initialState 2025) (str "in 3")).1
     (str "in 3") (str "3") (by decide) (by decide) (str " days") (by decide),
   by decide,
   (numeric_rule_suggestions defaultConsts (initialState 2025) (str "2025")).2
     (by decide)⟩

/-- C6 counterexample: "new year party" contains the cached key
"new year", so the claimed trigger holds, yet the rule contributes
nothing — the pattern at lines 233-234 only accepts inputs occurring
inside a key, never the converse direction. -/
theorem holiday_rule_counterexample :
    holidayClaimTrigger stNewYear (str "new year party") = true ∧
    contrib40 stNewYear (str "new year party") = [] := by
  constructor <;> decide

/-- C6 amended: the holiday rule contributes nothing when the cache is
inactive, when the trimmed lowercased input is shorter than 2, or when
the input is not a substring of any cached key (input merely containing
a key does not fire it); when it does contribute, it emits at most 5
strings, each the canonical name of a cached entry whose lowercased
name contains the input. -/
theorem holiday_rule_amended (st : HState) (input : JStr) :
    (st.holidaysInstance.isNone ∨ st.currentLocale = [] →
      contrib40 st input = []) ∧
    ((lowerStr (trimStr input)).length < 2 → contrib40 st input = []) ∧
    (st.holidayCache.any
        (fun kv => jsIncludes kv.1 (lowerStr (trimStr input))) = false →
      contrib40 st input = []) ∧
    (contrib40 st input).length ≤ 5 ∧
    (∀ s ∈ contrib40 st input, ∃ kv ∈ st.holidayCache, s = kv.2.name ∧
      jsIncludes (lowerStr kv.2.name) (lowerStr (trimStr input)) = true) := by
  refine ⟨?_, ?_, ?_, ?_, ?_⟩
  · intro h
    simp only [contrib40]
    rcases h with h1 | h1
    · rw [Option.isNone_iff_eq_none] at h1
      rw [h1]
      simp
    · rw [h1]
      simp
  · intro h
    have h2 : ¬((lowerStr (trimStr input)).length ≥ 2) := by omega
    simp only [contrib40]
    simp [h2]
  · intro h
    simp only [contrib40]
    simp [h]
  · simp only [contrib40]
    split
    · rw [List.length_take]
      exact min_le_left _ _
    · simp
  · intro s hs
    simp only [contrib40] at hs
    split at hs
    · have hs2 := List.mem_of_mem_take hs
      obtain ⟨e, he, rfl⟩ := List.mem_map.mp hs2
      obtain ⟨he2, hinc⟩ := List.mem_filter.mp he
      obtain ⟨kv, hkv, rfl⟩ := List.mem_map.mp he2
      exact ⟨kv, hkv, rfl, hinc⟩
    · exact absurd hs (List.not_mem_nil s)

theorem holiday_rule_amended_witness :
    contrib40 (initialState 2025) (str "christmas") = [] ∧
    contrib40 stChristmas (str "zzz") = [] ∧
    (contrib40 stChristmas (str "christ")).length ≤ 5 ∧
    (∃ kv ∈ stChristmas.holidayCache, str "Christmas Day" = kv.2.name ∧
      jsIncludes (lowerStr kv.2.name) (lowerStr (trimStr (str "christ")))
        = true) :=
  ⟨(holiday_rule_amended (initialState 2025) (str "christmas")).1 (Or.inl rfl),
   (holiday_rule_amended stChristmas (str "zzz")).2.2.1 (by decide),
   (holiday_rule_amended stChristmas (str "christ")).2.2.2.1,
   (holiday_rule_amended stChristmas (str "christ")).2.2.2.2
     (str "Christmas Day") (by decide)⟩

/-- C7 counterexample: a loader that fails for every locale.  The
failure of the requested locale "DE" is caught, but the retry
new Holidays("US") inside the catch block is unprotected, so its failure
propagates to the caller. -/
theorem init_holidays_counterexample :
    initHolidays extW [] (fun _ => none) (initialState 2025) (str "DE")
      = Except.error () := rfl

/-- C7 amended: a loader failure on a non-empty locale is caught; if the
locale is already "US" the whole state is left unchanged; otherwise one
retry with "US" happens — when it succeeds the locale becomes "US" and
the cache is rebuilt from the US instance, and when it also fails the
failure propagates to the caller. -/
theorem init_holidays_failure_handling (ext : Externals)
    (aliases : List (JStr × JStr)) (loader : JStr → Option HolInst)
    (st : HState) (locale : JStr) (hne : locale ≠ [])
    (hfail : loader locale = none) :
    (locale = str "US" →
      initHolidays ext aliases loader st locale = .ok st) ∧
    (locale ≠ str "US" → ∀ inst, loader (str "US") = some inst →
      initHolidays ext aliases loader st locale
        = .ok { st with holidaysInstance := some inst,
                        currentLocale := str "US",
                        holidayCache :=
                          rebuildCache ext aliases inst st.currentYear }) ∧
    (locale ≠ str "US" → loader (str "US") = none →
      initHolidays ext aliases loader st locale = .error ()) := by
  refine ⟨?_, ?_, ?_⟩
  · intro hus
    unfold initHolidays
    rw [if_neg hne]
    simp only [hfail]
    rw [if_neg (fun h => h hus)]
  · intro hnus inst hUS
    unfold initHolidays
    rw [if_neg hne]
    simp only [hfail]
    rw [if_pos hnus]
    simp only [hUS]
  · intro hnus hUS
    unfold initHolidays
    rw [if_neg hne]
    simp only [hfail]
    rw [if_pos hnus]
    simp only [hUS]

theorem init_holidays_failure_handling_witness :
    initHolidays extW [] loaderNone (initialState 2025) (str "US")
      = .ok (initialState 2025) ∧
    initHolidays extW [] loaderUSOnly (initialState 2025) (str "DE")
      = .ok { initialState 2025 with
              holidaysInstance := some ⟨fun _ => []⟩,
              currentLocale := str "US",
              holidayCache :=
                rebuildCache extW [] ⟨fun _ => []⟩ (initialState 2025).currentYear } ∧
    initHolidays extW [] loaderNone (initialState 2025) (str "DE")
      = .error () :=
  ⟨(init_holidays_failure_handling extW [] loaderNone (initialState 2025)
      (str "US") (by decide) rfl).1 rfl,
   (init_holidays_failure_handling extW [] loaderUSOnly (initialState 2025)
      (str "DE") (by decide) rfl).2.1 (by decide) ⟨fun _ => []⟩ rfl,
   (init_holidays_failure_handling extW [] loaderNone (initialState 2025)
      (str "DE") (by decide) rfl).2.2 (by decide) rfl⟩

/-- C10: in the initial static state the locale already reads "US" while
the holiday features are inactive: a first setLocale("US") is a no-op
returning the unchanged state, the holiday suggestion rule contributes
nothing, checkForHoliday finds nothing (so parseDate falls through to
the external parser on the enhanced text for any non-year input), and
getHolidayNames is empty — for every loader, externals and input. -/
theorem initial_state_inactive (y : Int) (ext : Externals)
    (aliases : List (JStr × JStr)) (loader : JStr → Option HolInst)
    (input text : JStr) :
    getCurrentLocale (initialState y) = str "US" ∧
    setLocale ext aliases loader (initialState y) (str "US")
      = .ok (initialState y) ∧
    contrib40 (initialState y) input = [] ∧
    checkForHoliday ext (initialState y) text = none ∧
    getHolidayNames (initialState y) = [] ∧
    (fourDigits (trimStr text) = false →
      parseDate ext (initialState y) text
        = ext.chronoParseDate (enhanceText text)) := by
  refine ⟨rfl, ?_, ?_, ?_, ?_, ?_⟩
  · unfold setLocale
    rw [if_neg (by decide), if_neg (fun h => h rfl)]
  · simp [contrib40, initialState]
  · simp [checkForHoliday, initialState]
  · simp [getHolidayNames, initialState]
  · intro h4
    by_cases he : text = []
    · subst he
      rfl
    · unfold parseDate
      rw [if_neg (by rw [h4]; exact Bool.false_ne_true)]
      rw [if_neg (by rw [isEmpty_false_of_ne_nil he]; exact Bool.false_ne_true)]
      have hc : checkForHoliday ext (initialState y) text = none := by
        simp [checkForHoliday, initialState]
      simp only [hc]

theorem initial_state_inactive_witness :
    getCurrentLocale (initialState 2025) = str "US" ∧
    setLocale extW [] loaderNone (initialState 2025) (str "US")
      = .ok (initialState 2025) ∧
    contrib40 (initialState 2025) (str "christmas") = [] ∧
    checkForHoliday extW (initialState 2025) (str "christmas") = none ∧
    getHolidayNames (initialState 2025) = [] ∧
    parseDate extW (initialState 2025) (str "tomorrow")
      = extW.chronoParseDate (enhanceText (str "tomorrow")) :=
  ⟨(initial_state_inactive 2025 extW [] loaderNone (str "christmas")
      (str "christmas")).1,
   (initial_state_inactive 2025 extW [] loaderNone (str "christmas")
      (str "christmas")).2.1,
   (initial_state_inactive 2025 extW [] loaderNone (str "christmas")
      (str "christmas")).2.2.1,
   (initial_state_inactive 2025 extW [] loaderNone (str "christmas")
      (str "christmas")).2.2.2.1,
   (initial_state_inactive 2025 extW [] loaderNone (str "christmas")
      (str "christmas")).2.2.2.2.1,
   (initial_state_inactive 2025 extW [] loaderNone (str "christmas")
      (str "tomorrow")).2.2.2.2.2 (by decide)⟩
